import Mathlib

/-
Verification of the text-geometry core of the trendbot card renderer
(`src/index.ts`, function `generateImageForCast`).

Text is embedded as `List Char` (one element per UTF-16 code unit of the
JavaScript string; none of the verified properties depend on surrogate
pairs).  Text measurement (`ctx.measureText`) is an external deterministic
backend and is embedded as an abstract function `Str → Nat` (the measured
width under the font that is current at the call site).  Fallible or
non-numeric canvas state is embedded as an explicit operation trace
(`CanvasOp`).
-/

/-- JavaScript strings, one element per code unit. -/
abbrev Str := List Char

/-- Helper for `splitStr`: JS `String.prototype.split` with a one-character
separator, with `acc` holding the (reversed) code units of the current
segment. -/
def splitStrAux (c : Char) : Str → Str → List Str
  | [], acc => [acc.reverse]
  | x :: xs, acc =>
    if x = c then acc.reverse :: splitStrAux c xs []
    else splitStrAux c xs (x :: acc)

/-- JS `s.split(c)` for a single-character separator `c`; in particular
`"".split(c) = [""]`. -/
def splitStr (c : Char) (s : Str) : List Str := splitStrAux c s []

/-- `Author` record from `src/index.ts` (fields used by rendering). -/
structure Author where
  username : Str
  display_name : Option Str

/-- `Cast` record from `src/index.ts` (fields used by rendering). -/
structure Cast where
  text : Str
  hash : Str
  author : Author
  created_at : Str

/-- `castInfo.text || "No cast text available"` (line 228): the empty string
is falsy in JavaScript, so empty cast text is replaced by the placeholder. -/
def castTextOf (t : Str) : Str :=
  if t = [] then ("No cast text available").toList else t

/-- State of the word-wrap loop: the flushed `lines` array and the
`currentLine` accumulator. -/
structure WrapState where
  lines : List Str
  currentLine : Str
deriving DecidableEq

/-- One iteration of the word-wrap `for` loop of `generateImageForCast`
(lines 240-272): forced-break handling when the word contains `'\n'`,
otherwise measured accumulation with flush-on-overflow. -/
def processWord (measure : Str → Nat) (maxWidth : Nat) (st : WrapState) (word : Str) : WrapState :=
  if '\n' ∈ word then
    let parts := splitStr '\n' word
    let first := parts.headD []
    let st1 : WrapState :=
      if st.currentLine ≠ [] then
        { lines := st.lines ++ [st.currentLine ++ (if first ≠ [] then ' ' :: first else [])],
          currentLine := [] }
      else if first ≠ [] then
        { lines := st.lines ++ [first], currentLine := [] }
      else st
    let st2 : WrapState := { st1 with lines := st1.lines ++ (parts.drop 1).dropLast }
    if parts.length > 1 then { st2 with currentLine := parts.getLastD [] } else st2
  else
    let testLine := st.currentLine ++ (if st.currentLine ≠ [] then [' '] else []) ++ word
    if measure testLine > maxWidth ∧ st.currentLine ≠ [] then
      { lines := st.lines ++ [st.currentLine], currentLine := word }
    else
      { st with currentLine := testLine }

/-- The word-wrap stage (lines 236-276): split the text on spaces, run the
wrap loop, and flush a non-empty final accumulator. -/
def wrap (measure : Str → Nat) (maxWidth : Nat) (text : Str) : List Str :=
  let final := (splitStr ' ' text).foldl (processWord measure maxWidth) ⟨[], []⟩
  final.lines ++ (if final.currentLine ≠ [] then [final.currentLine] else [])

/-- `const lineHeight = 48` (line 279). -/
def lineHeight : Nat := 48

/-- `const textBoxPadding = 40` (line 281). -/
def textBoxPadding : Nat := 40

/-- `const maxTextBoxHeight = 460` (line 287). -/
def maxTextBoxHeight : Nat := 460

/-- `const maxWidth = width - 280 = 920` (line 235). -/
def maxWidthConfig : Nat := 920

/-- `textBoxHeight = Math.min(textHeight + textBoxPadding * 2, maxTextBoxHeight)`
with `textHeight = lines.length * lineHeight` (lines 280, 288-291). -/
def textBoxHeight (lineCount : Nat) : Nat :=
  min (lineCount * lineHeight + textBoxPadding * 2) maxTextBoxHeight

/-- `maxVisibleLines = Math.floor((textBoxHeight - textBoxPadding * 2) / lineHeight)`
(lines 336-338). -/
def maxVisibleLines (lineCount : Nat) : Nat :=
  (textBoxHeight lineCount - textBoxPadding * 2) / lineHeight

/-- The box-height computation over JavaScript numbers (here: ℤ, all values
in this computation are integral). -/
def textBoxHeightZ (lineCount : ℤ) : ℤ :=
  min (lineCount * 48 + 40 * 2) 460

/-- The visible-line computation over JavaScript numbers; `Int` division
in Lean is floor division on these operands, matching `Math.floor`. -/
def maxVisibleLinesZ (lineCount : ℤ) : ℤ :=
  (textBoxHeightZ lineCount - 40 * 2) / 48

/-- The ellipsis marker `"..."` appended on truncation (line 348). -/
def ell : Str := ['.', '.', '.']

/-- Exact termination semantics of the ellipsis-fitting `while` loop
(lines 348-350): `FitTerm measure maxWidth s r` holds iff the loop started
on `s` terminates, with `r` the final value of `truncatedLine`.  Note that
`"".slice(0, -1)` is `""` in JavaScript, so from an empty accumulator whose
guard still fails the loop makes no progress; accordingly no derivation
ends in that situation. -/
inductive FitTerm (measure : Str → Nat) (maxWidth : Nat) : Str → Str → Prop
  | done : ∀ s, measure (s ++ ell) ≤ maxWidth → FitTerm measure maxWidth s s
  | step : ∀ s r, maxWidth < measure (s ++ ell) →
      FitTerm measure maxWidth s.dropLast r → FitTerm measure maxWidth s r

/-- One guarded iteration of the ellipsis-fitting loop: if the guard
`measure(line + "...") > maxWidth` holds, drop the final character
(`slice(0, -1)`), else leave the line unchanged. -/
def fitStep (measure : Str → Nat) (maxWidth : Nat) (s : Str) : Str :=
  if measure (s ++ ell) ≤ maxWidth then s else s.dropLast

/-- `n` iterations of `fitStep`: the state of `truncatedLine` after `n`
passes of the `while` loop (if the loop is still running). -/
def fitIter (measure : Str → Nat) (maxWidth : Nat) : Nat → Str → Str
  | 0, s => s
  | n + 1, s => fitIter measure maxWidth n (fitStep measure maxWidth s)

/-- The result of the ellipsis-fitting loop on every input on which the
loop terminates (see `fitEllipsis_eq_of_fitTerm`); on the inputs where the
source loop diverges (empty accumulator, guard still failing) this total
function bottoms out instead. -/
def fitEllipsis (measure : Str → Nat) (maxWidth : Nat) (s : Str) : Str :=
  if measure (s ++ ell) ≤ maxWidth then s
  else
    match s with
    | [] => []
    | a :: rest => fitEllipsis measure maxWidth ((a :: rest).dropLast)
termination_by s.length
decreasing_by
  simp [List.length_dropLast]

/-- The truncation condition `lines.length > maxVisibleLines` (line 345),
the `truncated` flag of the spec's `CardPlan`. -/
def truncated (lines : List Str) : Bool :=
  decide (lines.length > maxVisibleLines lines.length)

/-- `visibleLines = lines.slice(0, maxVisibleLines)` (line 339). -/
def visibleLines (lines : List Str) : List Str :=
  lines.take (maxVisibleLines lines.length)

/-- The text-drawing `for` loop (lines 343-356) restricted to the strings
passed to `fillText`: the line at index `maxVisibleLines - 1` is
ellipsis-fitted when the wrapped lines overflow, all others are drawn
verbatim. -/
def drawLines (measure : Str → Nat) (maxWidth mvl total : Nat) : Nat → List Str → List Str
  | _, [] => []
  | i, l :: ls =>
    (if i + 1 = mvl ∧ total > mvl then fitEllipsis measure maxWidth l ++ ell else l)
      :: drawLines measure maxWidth mvl total (i + 1) ls

/-- The strings actually drawn in the text box, in order. -/
def renderedLines (measure : Str → Nat) (maxWidth : Nat) (lines : List Str) : List Str :=
  drawLines measure maxWidth (maxVisibleLines lines.length) lines.length 0
    (lines.take (maxVisibleLines lines.length))

/-- One canvas-context operation issued by `generateImageForCast`.  Gradient
creation plus its color stops plus assignment to `fillStyle` is flattened
into a single op; the full-circle arc (`0` to `2π`) is its own op. -/
inductive CanvasOp where
  | setFillStyle (color : String)
  | setFont (font : String)
  | setTextAlign (a : String)
  | setStrokeStyle (color : String)
  | setLineWidth (w : Nat)
  | fillRect (x y w h : Nat)
  | fillText (text : Str) (x y : Nat)
  | beginPath
  | moveTo (x y : Nat)
  | lineTo (x y : Nat)
  | quadraticCurveTo (cx cy x y : Nat)
  | closePath
  | fill
  | stroke
  | arcFull (x y r : Nat)
  | setRadialGradientFill (x0 y0 r0 x1 y1 r1 : Nat) (stops : List (String × String))
deriving DecidableEq

/-- The footer caption (line 400): a fixed prefix followed by
`new Date().toISOString()`, the generation timestamp. -/
def footerTextOf (now : Str) : Str :=
  ("Generated by Farcaster Trending Bot • ").toList ++ now

/-- All canvas operations of `generateImageForCast` (lines 190-403) except
the final footer `fillText`.  `mf font text` is the measurement backend
(`ctx.measureText` under the given `ctx.font`). -/
def renderBodyOps (c : Cast) (tokenName : Str) (mf : String → Str → Nat) : List CanvasOp :=
  let m := mf "36px sans-serif"
  let castText := castTextOf c.text
  let lines := wrap m maxWidthConfig castText
  let tbh := textBoxHeight lines.length
  let tokenY := 340 + tbh + 100
  [ CanvasOp.setFillStyle "#121a2e", CanvasOp.fillRect 0 0 1200 1200,
    CanvasOp.setFillStyle "#F8FAFC", CanvasOp.setFont "bold 72px sans-serif",
    CanvasOp.setTextAlign "center", CanvasOp.fillText tokenName 600 120,
    CanvasOp.setStrokeStyle "#334155", CanvasOp.setLineWidth 2, CanvasOp.beginPath,
    CanvasOp.moveTo 100 160, CanvasOp.lineTo 1100 160, CanvasOp.stroke,
    CanvasOp.setFillStyle "#94A3B8", CanvasOp.setFont "36px sans-serif",
    CanvasOp.setTextAlign "left",
    CanvasOp.fillText ('@' :: c.author.username) 120 220 ]
  ++ (match c.author.display_name with
      | none => []
      | some dn =>
        [CanvasOp.setFillStyle "#F8FAFC", CanvasOp.setFont "bold 44px sans-serif"]
        ++ (if mf "bold 44px sans-serif" dn > 1200 - 240 then
              [CanvasOp.setFont "bold 36px sans-serif"] else [])
        ++ [CanvasOp.fillText dn 120 280])
  ++ [ CanvasOp.setFont "36px sans-serif", CanvasOp.setFillStyle "#F8FAFC",
       CanvasOp.setFillStyle "rgba(30, 41, 59, 0.7)", CanvasOp.beginPath,
       CanvasOp.moveTo 140 340, CanvasOp.lineTo 1060 340,
       CanvasOp.quadraticCurveTo 1080 340 1080 360,
       CanvasOp.lineTo 1080 (340 + tbh - 20),
       CanvasOp.quadraticCurveTo 1080 (340 + tbh) 1060 (340 + tbh),
       CanvasOp.lineTo 140 (340 + tbh),
       CanvasOp.quadraticCurveTo 120 (340 + tbh) 120 (340 + tbh - 20),
       CanvasOp.lineTo 120 360,
       CanvasOp.quadraticCurveTo 120 340 140 340,
       CanvasOp.closePath, CanvasOp.fill,
       CanvasOp.setStrokeStyle "#475569", CanvasOp.setLineWidth 2, CanvasOp.stroke,
       CanvasOp.setFillStyle "#F8FAFC", CanvasOp.setTextAlign "left" ]
  ++ (renderedLines m maxWidthConfig lines).enum.map
       (fun p => CanvasOp.fillText p.2 160 (404 + 48 * p.1))
  ++ [ CanvasOp.beginPath, CanvasOp.arcFull 600 tokenY 150,
       CanvasOp.setRadialGradientFill 600 tokenY 20 600 tokenY 150
         [("0", "#10B981"), ("0.5", "#3B82F6"), ("1", "#8B5CF6")],
       CanvasOp.fill, CanvasOp.setStrokeStyle "#FFFFFF", CanvasOp.setLineWidth 5,
       CanvasOp.stroke,
       CanvasOp.setFillStyle "#FFFFFF", CanvasOp.setFont "bold 120px sans-serif",
       CanvasOp.setTextAlign "center",
       CanvasOp.fillText ((tokenName.take 1).map Char.toUpper) 600 (tokenY + 40),
       CanvasOp.setFillStyle "#94A3B8", CanvasOp.setFont "20px sans-serif",
       CanvasOp.setTextAlign "center" ]

/-- The full canvas-operation trace of one render: the body followed by the
footer `fillText`, whose string embeds the generation timestamp `now`
(lines 395-403).  The encoded PNG is a function of this trace. -/
def renderOps (c : Cast) (tokenName : Str) (mf : String → Str → Nat) (now : Str) : List CanvasOp :=
  renderBodyOps c tokenName mf ++ [CanvasOp.fillText (footerTextOf now) 600 1160]

/-- A concrete deterministic measurement backend: 34 width units per code
unit (under `maxWidthConfig = 920`, a line fits iff it has at most 27 code
units). -/
def m34 : Str → Nat := fun s => 34 * s.length

/-- Measurement backend that returns the code-unit count. -/
def lenChars : Str → Nat := List.length

/-- An eight-character word. -/
def w8 : Str := List.replicate 8 'a'

/-- A nine-character word. -/
def w9 : Str := List.replicate 9 'b'

/-- A 300-code-unit text with no forced breaks that wraps to exactly 11
lines under `m34` and width 920 (three words per line). -/
def cexText300 : Str :=
  List.intercalate [' ']
    ([w9, w8, w8, w9, w8, w8, w9, w8, w8, w9, w8, w8] ++ List.replicate 21 w8)

/-- A single 50-character word: wider than `maxWidthConfig` under `m34`. -/
def longWord : Str := List.replicate 50 'a'

/-- Last element of a list of lines (`parts[parts.length - 1]` /
`visibleLines[maxVisibleLines - 1]`), empty for the empty list. -/
def lastStr : List Str → Str
  | [] => []
  | [l] => l
  | _ :: l :: ls => lastStr (l :: ls)

/-- A concrete `Cast` fixture. -/
def exCast : Cast := ⟨[], [], ⟨['u'], none⟩, []⟩

/-- Measurement backend that measures everything at width 0. -/
def mf0 : String → Str → Nat := fun _ _ => 0

/-- The flush performed at the head of the forced-break branch, in the
spec's words: flush the accumulator concatenated with the first segment
(if non-empty) as a line; with an empty accumulator, emit the first
segment alone when non-empty. -/
def headFlush (acc first : Str) : List Str :=
  if acc ≠ [] then [acc ++ (if first ≠ [] then ' ' :: first else [])]
  else if first ≠ [] then [first] else []

theorem splitStrAux_sep_not_mem (c : Char) :
    ∀ (s acc : Str), c ∉ acc → ∀ p ∈ splitStrAux c s acc, c ∉ p
  | [], acc, hacc, p, hp => by
    simp only [splitStrAux, List.mem_singleton] at hp
    subst hp
    simpa using hacc
  | x :: xs, acc, hacc, p, hp => by
    by_cases hx : x = c
    · rw [splitStrAux, if_pos hx] at hp
      rcases List.mem_cons.mp hp with h | h
      · subst h; simpa using hacc
      · exact splitStrAux_sep_not_mem c xs [] (by simp) p h
    · rw [splitStrAux, if_neg hx] at hp
      refine splitStrAux_sep_not_mem c xs (x :: acc) ?_ p hp
      intro h
      rcases List.mem_cons.mp h with h | h
      · exact hx h.symm
      · exact hacc h

/-- No piece of `splitStr c s` contains the separator `c`. -/
theorem splitStr_sep_not_mem (c : Char) (s : Str) : ∀ p ∈ splitStr c s, c ∉ p :=
  splitStrAux_sep_not_mem c s [] (by simp)

theorem splitStrAux_mem_subset (c : Char) :
    ∀ (s acc : Str) (p : Str), p ∈ splitStrAux c s acc → ∀ a ∈ p, a ∈ acc ∨ a ∈ s
  | [], acc, p, hp, a, ha => by
    simp only [splitStrAux, List.mem_singleton] at hp
    subst hp
    exact Or.inl (List.mem_reverse.mp ha)
  | x :: xs, acc, p, hp, a, ha => by
    by_cases hx : x = c
    · rw [splitStrAux, if_pos hx] at hp
      rcases List.mem_cons.mp hp with h | h
      · subst h
        exact Or.inl (List.mem_reverse.mp ha)
      · rcases splitStrAux_mem_subset c xs [] p h a ha with h' | h'
        · exact absurd h' (List.not_mem_nil a)
        · exact Or.inr (List.mem_cons_of_mem x h')
    · rw [splitStrAux, if_neg hx] at hp
      rcases splitStrAux_mem_subset c xs (x :: acc) p hp a ha with h' | h'
      · rcases List.mem_cons.mp h' with h'' | h''
        · exact Or.inr (h'' ▸ List.mem_cons_self x xs)
        · exact Or.inl h''
      · exact Or.inr (List.mem_cons_of_mem x h')

/-- Every code unit of a piece of `splitStr c s` occurs in `s`. -/
theorem splitStr_mem_subset (c : Char) (s : Str) (p : Str) (hp : p ∈ splitStr c s) :
    ∀ a ∈ p, a ∈ s := by
  intro a ha
  rcases splitStrAux_mem_subset c s [] p hp a ha with h | h
  · exact absurd h (List.not_mem_nil a)
  · exact h

theorem splitStrAux_length_pos (c : Char) :
    ∀ (s acc : Str), 0 < (splitStrAux c s acc).length
  | [], _ => by simp [splitStrAux]
  | x :: xs, acc => by
    by_cases hx : x = c
    · rw [splitStrAux, if_pos hx]; simp
    · rw [splitStrAux, if_neg hx]
      exact splitStrAux_length_pos c xs (x :: acc)

theorem splitStrAux_length_ge_two (c : Char) :
    ∀ (s acc : Str), c ∈ s → 2 ≤ (splitStrAux c s acc).length
  | [], _, h => absurd h (List.not_mem_nil c)
  | x :: xs, acc, h => by
    by_cases hx : x = c
    · rw [splitStrAux, if_pos hx]
      have := splitStrAux_length_pos c xs []
      simp only [List.length_cons]
      omega
    · rw [splitStrAux, if_neg hx]
      refine splitStrAux_length_ge_two c xs (x :: acc) ?_
      rcases List.mem_cons.mp h with h' | h'
      · exact absurd h'.symm hx
      · exact h'

/-- A word that contains the separator splits into at least two parts. -/
theorem splitStr_length_ge_two (c : Char) (s : Str) (h : c ∈ s) :
    1 < (splitStr c s).length :=
  splitStrAux_length_ge_two c s [] h

/-- Whenever the ellipsis-fitting loop terminates, `fitEllipsis` computes
its result. -/
theorem fitEllipsis_eq_of_fitTerm {m : Str → Nat} {W : Nat} {s r : Str}
    (h : FitTerm m W s r) : fitEllipsis m W s = r := by
  induction h with
  | done s hs => rw [fitEllipsis.eq_def, if_pos hs]
  | step s r hs _ ih =>
    rw [fitEllipsis.eq_def, if_neg (by omega)]
    cases s with
    | nil =>
      simp only [List.dropLast_nil] at ih
      rw [fitEllipsis.eq_def, if_neg (by omega)] at ih
      exact ih
    | cons a rest => exact ih

/-- The loop result measures within `maxWidth` once the ellipsis is
appended. -/
theorem fitTerm_fits {m : Str → Nat} {W : Nat} {s r : Str}
    (h : FitTerm m W s r) : m (r ++ ell) ≤ W := by
  induction h with
  | done s hs => exact hs
  | step s r _ _ ih => exact ih

/-- If the bare ellipsis fits, the fitting loop terminates from every start
line, with result `fitEllipsis`. -/
theorem fitTerm_total (m : Str → Nat) (W : Nat) (hell : m ([] ++ ell) ≤ W) :
    ∀ s : Str, FitTerm m W s (fitEllipsis m W s)
  | [] => by
    rw [fitEllipsis.eq_def, if_pos hell]
    exact FitTerm.done [] hell
  | a :: rest => by
    by_cases h : m ((a :: rest) ++ ell) ≤ W
    · rw [fitEllipsis.eq_def, if_pos h]
      exact FitTerm.done _ h
    · rw [fitEllipsis.eq_def, if_neg h]
      exact FitTerm.step _ _ (by omega) (fitTerm_total m W hell ((a :: rest).dropLast))
termination_by s => s.length
decreasing_by
  simp [List.length_dropLast]

theorem drawLines_length (m : Str → Nat) (W mvl total : Nat) :
    ∀ (i : Nat) (ls : List Str), (drawLines m W mvl total i ls).length = ls.length
  | _, [] => rfl
  | i, l :: ls => by
    simp only [drawLines, List.length_cons, drawLines_length m W mvl total (i + 1) ls]

theorem drawLines_of_le (m : Str → Nat) (W mvl total : Nat) (h : total ≤ mvl) :
    ∀ (i : Nat) (ls : List Str), drawLines m W mvl total i ls = ls
  | _, [] => rfl
  | i, l :: ls => by
    rw [drawLines, if_neg (by omega), drawLines_of_le m W mvl total h (i + 1) ls]

theorem drawLines_last_fitted (m : Str → Nat) (W mvl total : Nat) (htot : mvl < total) :
    ∀ (i : Nat) (ls : List Str), ls ≠ [] → i + ls.length = mvl →
    drawLines m W mvl total i ls = ls.dropLast ++ [fitEllipsis m W (lastStr ls) ++ ell]
  | _, [], h, _ => absurd rfl h
  | i, [l], _, hlen => by
    rw [drawLines, drawLines,
      if_pos ⟨by simpa using hlen, htot⟩]
    simp [lastStr]
  | i, l :: l' :: ls, _, hlen => by
    rw [drawLines, if_neg (by simp only [List.length_cons] at hlen; omega),
      drawLines_last_fitted m W mvl total htot (i + 1) (l' :: ls) (by simp)
        (by simp only [List.length_cons] at hlen ⊢; omega)]
    simp [lastStr, List.dropLast]

/-- Invariant of the wrap loop: every flushed line, and the accumulator
when non-empty, either measures within `maxWidth` or contains no space.
Holds provided every word contains neither a space nor a forced break. -/
theorem wrap_inv (m : Str → Nat) (W : Nat) :
    ∀ (ws : List Str) (st : WrapState),
    (∀ w ∈ ws, ' ' ∉ w ∧ '\n' ∉ w) →
    (st.currentLine = [] ∨ m st.currentLine ≤ W ∨ ' ' ∉ st.currentLine) →
    (∀ l ∈ st.lines, m l ≤ W ∨ ' ' ∉ l) →
    (∀ l ∈ (ws.foldl (processWord m W) st).lines, m l ≤ W ∨ ' ' ∉ l) ∧
    ((ws.foldl (processWord m W) st).currentLine = [] ∨
      m (ws.foldl (processWord m W) st).currentLine ≤ W ∨
      ' ' ∉ (ws.foldl (processWord m W) st).currentLine) := by
  intro ws
  induction ws with
  | nil =>
    intro st _ hcur hlines
    exact ⟨hlines, hcur⟩
  | cons w ws ih =>
    intro st hws hcur hlines
    rw [List.foldl_cons]
    have hw := hws w (List.mem_cons_self w ws)
    refine ih (processWord m W st w) (fun w' hw' => hws w' (List.mem_cons_of_mem w hw')) ?_ ?_
    · rw [processWord, if_neg hw.2]
      by_cases hc : m (st.currentLine ++ (if st.currentLine ≠ [] then [' '] else []) ++ w) > W ∧
          st.currentLine ≠ []
      · rw [if_pos hc]
        exact Or.inr (Or.inr hw.1)
      · rw [if_neg hc]
        rcases Decidable.not_and_iff_or_not.mp hc with h1 | h2
        · exact Or.inr (Or.inl (Nat.not_lt.mp h1))
        · have hemp : st.currentLine = [] := Decidable.not_not.mp h2
          rw [hemp]
          simp only [ne_eq, not_true_eq_false, if_neg, ite_false]
          exact Or.inr (Or.inr (by simpa using hw.1))
    · rw [processWord, if_neg hw.2]
      by_cases hc : m (st.currentLine ++ (if st.currentLine ≠ [] then [' '] else []) ++ w) > W ∧
          st.currentLine ≠ []
      · rw [if_pos hc]
        intro l hl
        rcases List.mem_append.mp hl with h | h
        · exact hlines l h
        · rcases List.mem_singleton.mp h with rfl
          rcases hcur with h' | h' | h'
          · exact absurd h' hc.2
          · exact Or.inl h'
          · exact Or.inr h'
      · rw [if_neg hc]
        exact hlines

/-- The forced-break branch of the wrap loop, characterised in the spec's
vocabulary: on a word containing `'\n'`, the step appends the head flush
and every interior segment verbatim to the flushed lines, and sets the
accumulator to the final segment. -/
theorem processWord_forced_break (m : Str → Nat) (W : Nat) (st : WrapState) (w : Str)
    (h : '\n' ∈ w) :
    processWord m W st w =
      ⟨st.lines ++ headFlush st.currentLine ((splitStr '\n' w).headD []) ++
         ((splitStr '\n' w).drop 1).dropLast,
       (splitStr '\n' w).getLastD []⟩ := by
  rw [processWord, if_pos h, if_pos (splitStr_length_ge_two '\n' w h)]
  generalize splitStr '\n' w = parts
  cases parts with
  | nil =>
    by_cases hacc : st.currentLine = [] <;> simp [headFlush, hacc]
  | cons p ps =>
    by_cases hacc : st.currentLine = []
    · by_cases hfst : p = []
      · simp [headFlush, hacc, hfst]
      · simp [headFlush, hacc, hfst, List.append_assoc]
    · by_cases hfst : p = []
      · simp [headFlush, hacc, hfst, List.append_assoc]
      · simp [headFlush, hacc, hfst, List.append_assoc]

theorem fitIter_nil_two : ∀ k : Nat, fitIter lenChars 2 k [] = []
  | 0 => rfl
  | k + 1 => by
    rw [fitIter]
    have h : fitStep lenChars 2 [] = [] := by decide
    rw [h, fitIter_nil_two k]

/-- C1: the ellipsis-fitting loop does NOT terminate when even the bare
ellipsis exceeds `maxWidth`: under the backend `lenChars` with
`maxWidth = 2`, started on the line `"a"`, the loop state is `"a"` and
then forever `""`, and the loop guard `measure(state + "...") > maxWidth`
holds after every number of iterations, so the `while` loop never exits
(`"".slice(0, -1) = ""` makes no progress).  This contradicts the claimed
termination "at an empty line plus ellipsis". -/
theorem c1_ellipsis_loop_diverges :
    ∀ n : Nat,
      fitIter lenChars 2 n ['a'] = (if n = 0 then ['a'] else []) ∧
      2 < lenChars (fitIter lenChars 2 n ['a'] ++ ell) := by
  intro n
  cases n with
  | zero => exact ⟨rfl, by decide⟩
  | succ k =>
    have hstep : fitStep lenChars 2 ['a'] = [] := by decide
    have h1 : fitIter lenChars 2 (k + 1) ['a'] = [] := by
      rw [fitIter, hstep, fitIter_nil_two k]
    refine ⟨by simp [h1], ?_⟩
    rw [h1]
    decide

/-- C4: the layout computes `boxHeight = min(lineCount*lineHeight + 2*padding,
maxTextBoxHeight)` and `maxVisibleLines = floor((boxHeight - 2*padding) /
lineHeight)`, and `maxVisibleLines ≥ 0` for every non-negative line count;
the JavaScript-number computation agrees with the `Nat` embedding. -/
theorem c4_layout_formulas :
    (∀ n : ℤ, 0 ≤ n →
      textBoxHeightZ n = min (n * 48 + 2 * 40) 460 ∧
      maxVisibleLinesZ n = (textBoxHeightZ n - 2 * 40) / 48 ∧
      0 ≤ maxVisibleLinesZ n) ∧
    (∀ k : Nat, textBoxHeightZ k = textBoxHeight k ∧ maxVisibleLinesZ k = maxVisibleLines k) := by
  constructor
  · intro n hn
    refine ⟨by unfold textBoxHeightZ; norm_num, by unfold maxVisibleLinesZ; norm_num, ?_⟩
    unfold maxVisibleLinesZ textBoxHeightZ
    omega
  · intro k
    unfold maxVisibleLinesZ textBoxHeightZ maxVisibleLines textBoxHeight lineHeight
      textBoxPadding maxTextBoxHeight
    constructor <;> omega

/-- C4 witness at line count 5. -/
theorem c4_layout_formulas_witness :
    textBoxHeightZ 5 = min (5 * 48 + 2 * 40) 460 ∧
    maxVisibleLinesZ 5 = (textBoxHeightZ 5 - 2 * 40) / 48 ∧
    0 ≤ maxVisibleLinesZ 5 :=
  c4_layout_formulas.1 5 (by decide)

/-- C5: when the wrapped lines fit, `truncated` is false and every wrapped
line is drawn unchanged (no appended ellipsis); otherwise `truncated` is
true and exactly `maxVisibleLines = floor((boxHeight - 2*padding)/lineHeight)`
lines are drawn. -/
theorem c5_card_plan_invariant :
    ∀ (m : Str → Nat) (W : Nat) (lines : List Str),
      (lines.length ≤ maxVisibleLines lines.length →
        truncated lines = false ∧ renderedLines m W lines = lines) ∧
      (maxVisibleLines lines.length < lines.length →
        truncated lines = true ∧
        (renderedLines m W lines).length = maxVisibleLines lines.length ∧
        maxVisibleLines lines.length =
          (textBoxHeight lines.length - 2 * textBoxPadding) / lineHeight) := by
  intro m W lines
  constructor
  · intro h
    refine ⟨?_, ?_⟩
    · unfold truncated
      simpa using Nat.not_lt.mpr h
    · unfold renderedLines
      rw [List.take_of_length_le h, drawLines_of_le m W _ _ h]
  · intro h
    refine ⟨?_, ?_, ?_⟩
    · unfold truncated
      simpa using h
    · unfold renderedLines
      rw [drawLines_length, List.length_take]
      omega
    · unfold maxVisibleLines lineHeight textBoxPadding
      omega

/-- C5 witness: a one-line input is drawn unchanged; an eight-line input is
truncated to seven drawn lines. -/
theorem c5_card_plan_invariant_witness :
    truncated [['a']] = false ∧ renderedLines m34 920 [['a']] = [['a']] ∧
    truncated (List.replicate 8 ['a']) = true ∧
    (renderedLines m34 920 (List.replicate 8 ['a'])).length =
      maxVisibleLines (List.replicate 8 ['a']).length := by
  refine ⟨?_, ?_, ?_, ?_⟩
  · exact ((c5_card_plan_invariant m34 920 [['a']]).1 (by decide)).1
  · exact ((c5_card_plan_invariant m34 920 [['a']]).1 (by decide)).2
  · exact ((c5_card_plan_invariant m34 920 (List.replicate 8 ['a'])).2 (by decide)).1
  · exact ((c5_card_plan_invariant m34 920 (List.replicate 8 ['a'])).2 (by decide)).2.1

/-- C6: whenever truncation occurs, any value on which the ellipsis-fitting
loop terminates for the last visible line measures within `maxWidth` once
`"..."` is appended. -/
theorem c6_truncated_line_fits :
    ∀ (m : Str → Nat) (W : Nat) (lines : List Str) (r : Str),
      maxVisibleLines lines.length < lines.length →
      0 < maxVisibleLines lines.length →
      FitTerm m W (lastStr (visibleLines lines)) r →
      m (r ++ ell) ≤ W :=
  fun _ _ _ _ _ _ h => fitTerm_fits h

/-- C6 witness on an eight-line input whose last visible line already
fits. -/
theorem c6_truncated_line_fits_witness : m34 (['a'] ++ ell) ≤ 920 := by
  have heq : lastStr (visibleLines (List.replicate 8 ['a'])) = ['a'] := by decide
  refine c6_truncated_line_fits m34 920 (List.replicate 8 ['a']) ['a'] (by decide) (by decide) ?_
  rw [heq]
  exact FitTerm.done ['a'] (by decide)

/-- C10: under the baked-in configuration, `maxVisibleLines` never exceeds
7, for every measurement backend, width, input text and line count. -/
theorem c10_visible_lines_at_most_seven :
    (∀ (m : Str → Nat) (W : Nat) (text : Str),
      maxVisibleLines (wrap m W text).length ≤ 7) ∧
    (∀ n : Nat, maxVisibleLines n ≤ 7) := by
  have h : ∀ n : Nat, maxVisibleLines n ≤ 7 := by
    intro n
    unfold maxVisibleLines textBoxHeight lineHeight textBoxPadding maxTextBoxHeight
    omega
  exact ⟨fun _ _ _ => h _, h⟩

/-- C9 counterexample: the render substitutes the placeholder for empty
cast text (`castInfo.text || "No cast text available"`), so the wrapping
stage of the render on empty input yields one line, not zero. -/
theorem c9_empty_text_counterexample :
    castTextOf [] = ("No cast text available").toList ∧
    wrap m34 920 (castTextOf []) ≠ [] ∧
    (wrap m34 920 (castTextOf [])).length = 1 := by
  decide

/-- C9 (amended): empty text is not an error; the wrap stage itself yields
zero lines on empty text, with a degenerate layout (box height `2*padding`,
zero visible lines, nothing drawn), but the render replaces empty cast text
by the placeholder, which wraps to one line. -/
theorem c9_empty_text_amended :
    ∀ (m : Str → Nat) (W : Nat),
      wrap m W [] = [] ∧
      textBoxHeight 0 = 2 * textBoxPadding ∧
      maxVisibleLines 0 = 0 ∧
      renderedLines m W [] = [] ∧
      wrap m34 920 (castTextOf []) = [("No cast text available").toList] := by
  intro m W
  refine ⟨?_, by decide, by decide, rfl, by decide⟩
  simp [wrap, splitStr, splitStrAux, processWord]

/-- C3 counterexample: a single 50-character word is emitted as its own
wrapped line and measures 1700 > 920 under `m34`. -/
theorem c3_oversized_word_counterexample :
    wrap m34 920 longWord = [longWord] ∧ ∃ l ∈ wrap m34 920 longWord, 920 < m34 l := by
  decide

/-- C3 (amended): for input text without forced breaks, every wrapped line
either measures within `maxWidth` or contains no space (it is a single
word placed on its own line without splitting). -/
theorem c3_line_fits_or_single_word (m : Str → Nat) (W : Nat) (text : Str)
    (hnb : '\n' ∉ text) :
    ∀ l ∈ wrap m W text, m l ≤ W ∨ ' ' ∉ l := by
  have hwords : ∀ w ∈ splitStr ' ' text, ' ' ∉ w ∧ '\n' ∉ w := by
    intro w hw
    refine ⟨splitStr_sep_not_mem ' ' text w hw, ?_⟩
    intro hn
    exact hnb (splitStr_mem_subset ' ' text w hw '\n' hn)
  have hinv := wrap_inv m W (splitStr ' ' text) ⟨[], []⟩ hwords (Or.inl rfl) (by simp)
  intro l hl
  simp only [wrap] at hl
  rcases List.mem_append.mp hl with h | h
  · exact hinv.1 l h
  · by_cases hc : ((splitStr ' ' text).foldl (processWord m W) ⟨[], []⟩).currentLine = []
    · rw [if_neg (by simp [hc])] at h
      exact absurd h (List.not_mem_nil l)
    · rw [if_pos hc] at h
      rcases List.mem_singleton.mp h with rfl
      rcases hinv.2 with h' | h' | h'
      · exact absurd h' hc
      · exact Or.inl h'
      · exact Or.inr h'

/-- C3 witness: the text `"hello world"` wraps to the single line
`"hello world"`, which fits. -/
theorem c3_line_fits_or_single_word_witness :
    m34 (("hello world").toList) ≤ 920 ∨ ' ' ∉ (("hello world").toList) :=
  c3_line_fits_or_single_word m34 920 (("hello world").toList) (by decide)
    (("hello world").toList) (by decide)

set_option maxRecDepth 8192 in
/-- C7 counterexample: a 300-code-unit text with no forced breaks that
wraps to 11 lines; the computed `maxVisibleLines` is 7, not 9. -/
theorem c7_eleven_lines_counterexample :
    cexText300.length = 300 ∧ '\n' ∉ cexText300 ∧
    (wrap m34 920 cexText300).length = 11 ∧
    maxVisibleLines (wrap m34 920 cexText300).length = 7 ∧
    maxVisibleLines (wrap m34 920 cexText300).length ≠ 9 := by
  decide

/-- C7 (amended): for any 11-line wrap result, `maxVisibleLines` is 7, the
plan is truncated with 7 visible lines and the last drawn line is the
ellipsis-fitted seventh line; on the concrete 300-character scenario text
the fitting loop terminates on the last visible line. -/
theorem c7_eleven_lines_amended :
    (∀ (m : Str → Nat) (W : Nat) (lines : List Str),
      lines.length = 11 →
      maxVisibleLines lines.length = 7 ∧ truncated lines = true ∧
      (renderedLines m W lines).length = 7 ∧
      renderedLines m W lines =
        (visibleLines lines).dropLast ++
          [fitEllipsis m W (lastStr (visibleLines lines)) ++ ell]) ∧
    FitTerm m34 920 (lastStr (visibleLines (wrap m34 920 cexText300)))
      (fitEllipsis m34 920 (lastStr (visibleLines (wrap m34 920 cexText300)))) := by
  constructor
  · intro m W lines h
    have hmvl : maxVisibleLines lines.length = 7 := by
      rw [h]
      decide
    refine ⟨hmvl, ?_, ?_, ?_⟩
    · unfold truncated
      simp only [h, hmvl]
      decide
    · unfold renderedLines
      rw [drawLines_length, List.length_take, hmvl, h]
      decide
    · unfold renderedLines visibleLines
      rw [hmvl, h]
      refine drawLines_last_fitted m W 7 11 (by omega) 0 (lines.take 7) ?_ ?_
      · refine List.ne_nil_of_length_pos ?_
        rw [List.length_take, h]
        omega
      · rw [List.length_take, h]
        omega
  · exact fitTerm_total m34 920 (by decide) _

/-- C7 witness: an 11-line concrete input. -/
theorem c7_eleven_lines_amended_witness :
    maxVisibleLines (List.replicate 11 ['a']).length = 7 ∧
    truncated (List.replicate 11 ['a']) = true := by
  have h := c7_eleven_lines_amended.1 m34 920 (List.replicate 11 ['a']) (by decide)
  exact ⟨h.1, h.2.1⟩

/-- C8: on a word containing one or more forced breaks, the wrap step
flushes the accumulator concatenated with the first segment, emits every
interior segment verbatim (an empty interior segment becomes an empty
line), and sets the accumulator to the final segment; the scenario
`"line one\nline two"` wraps to exactly `"line one"`, `"line two"` with no
truncation. -/
theorem c8_forced_break_and_scenario :
    (∀ (m : Str → Nat) (W : Nat) (st : WrapState) (w : Str),
      '\n' ∈ w →
      processWord m W st w =
        ⟨st.lines ++ headFlush st.currentLine ((splitStr '\n' w).headD []) ++
           ((splitStr '\n' w).drop 1).dropLast,
         (splitStr '\n' w).getLastD []⟩) ∧
    wrap m34 920 (("line one\nline two").toList) =
      [("line one").toList, ("line two").toList] ∧
    truncated [("line one").toList, ("line two").toList] = false := by
  refine ⟨processWord_forced_break, by decide, by decide⟩

/-- C8 witness: one forced-break word processed from a non-empty
accumulator. -/
theorem c8_forced_break_and_scenario_witness :
    processWord m34 920 ⟨[], ['x']⟩ ('a' :: '\n' :: 'b' :: []) =
      ⟨[['x', ' ', 'a']], ['b']⟩ := by
  have h := c8_forced_break_and_scenario.1 m34 920 ⟨[], ['x']⟩
    ('a' :: '\n' :: 'b' :: []) (by decide)
  rw [h]
  decide

set_option maxRecDepth 8192 in
/-- C2 counterexample: two renders with identical `Cast`, `tokenName` and
measurement backend but different generation timestamps produce different
operation traces (the footer embeds `new Date().toISOString()`), hence
different encoded output. -/
theorem c2_timestamp_counterexample :
    renderOps exCast ['T'] mf0 ['1'] ≠ renderOps exCast ['T'] mf0 ['2'] := by
  decide

/-- C2 (amended): the render trace is a pure function of `Cast`,
`tokenName`, measurement backend and generation timestamp — with the
timestamp also fixed the trace is identical, and renders differing only in
the timestamp always differ, because the footer embeds the timestamp. -/
theorem c2_deterministic_given_timestamp :
    ∀ (c : Cast) (tokenName : Str) (mf : String → Str → Nat) (now1 now2 : Str),
      renderOps c tokenName mf now1 = renderOps c tokenName mf now2 ↔ now1 = now2 := by
  intro c tn mf n1 n2
  constructor
  · intro h
    unfold renderOps at h
    have h2 := List.append_cancel_left h
    injection h2 with h3 _
    injection h3 with h4 _ _
    unfold footerTextOf at h4
    exact List.append_cancel_left h4
  · intro h
    rw [h]

/-- C2 witness: with the timestamp also fixed, the trace is identical. -/
theorem c2_deterministic_given_timestamp_witness :
    renderOps exCast ['T'] mf0 ['9'] = renderOps exCast ['T'] mf0 ['9'] :=
  (c2_deterministic_given_timestamp exCast ['T'] mf0 ['9'] ['9']).mpr rfl
